import Mathlib

/-!
Verification of the phonebook store (src/phonebook.py).

The in-memory store (`PhoneBook`) and its record type (`Contact`) are
embedded shallowly: Python strings become `List Char`, `str.strip`
becomes `pyStrip`, `str.lower` becomes `lowerL`, the substring test
`t in s` becomes `containsSub`, and a JSON contact object becomes
`EntryDict` (each key present or absent; an `id` key holding JSON null
is merged with the absent case, exactly what `dict.get` yields).  The
backing file is a `FileState`: missing, unparseable, or parsed into its
list of contact objects.  Interactive prompts are dropped; the values
they read are parameters of the corresponding operation.
-/

/-- Left part of Python `str.strip`: drop leading whitespace. -/
def trimLeft (s : List Char) : List Char := s.dropWhile Char.isWhitespace

/-- Right part of Python `str.strip`: drop trailing whitespace. -/
def trimRight (s : List Char) : List Char := (trimLeft s.reverse).reverse

/-- Python `str.strip`: drop leading and trailing whitespace. -/
def pyStrip (s : List Char) : List Char := trimRight (trimLeft s)

/-- Python `str.lower` (character-wise model). -/
def lowerL (s : List Char) : List Char := s.map Char.toLower

/-- Python substring test `needle in hay`. -/
def containsSub (needle : List Char) : List Char → Bool
  | [] => needle.isEmpty
  | c :: t => needle.isPrefixOf (c :: t) || containsSub needle t

/-- One contact record (class `Contact`). -/
structure Contact where
  id : Option Int
  name : List Char
  phone : List Char
  comment : List Char
  deriving DecidableEq, Repr

/-- Constructor `Contact.__init__`: the three text fields are stripped at construction. -/
def Contact.make (name phone comment : List Char) (contact_id : Option Int) : Contact :=
  { id := contact_id, name := pyStrip name, phone := pyStrip phone, comment := pyStrip comment }

/-- A JSON contact object as `Contact.from_dict` receives it: each key
present (`some`) or absent (`none`).  Values are typed as the expected
file format types them. -/
structure EntryDict where
  id : Option Int
  name : Option (List Char)
  phone : Option (List Char)
  comment : Option (List Char)
  note : Option (List Char)
  deriving DecidableEq, Repr

/-- Class method `Contact.from_dict`: raises (here `none`) when the `name` or `phone`
key is missing; `comment` defaults to the empty string via
`data.get('comment', '')`; `id` comes from `data.get('id')`. -/
def Contact.from_dict (d : EntryDict) : Option Contact :=
  match d.name, d.phone with
  | some n, some p => some (Contact.make n p (d.comment.getD []) d.id)
  | _, _ => none

/-- Method `Contact.to_dict`: keys `id`, `name`, `phone`, `comment`. -/
def Contact.to_dict (c : Contact) : EntryDict :=
  { id := c.id, name := some c.name, phone := some c.phone,
    comment := some c.comment, note := none }

/-- The store state of class `PhoneBook` (the file name is factored out:
the file's content is passed to `load_from_file` directly). -/
structure PhoneBook where
  contacts : List Contact
  next_id : Int
  modified : Bool
  deriving DecidableEq, Repr

/-- Constructor `PhoneBook.__init__`. -/
def PhoneBook.init : PhoneBook :=
  { contacts := [], next_id := 1, modified := false }

/-- The backing file as `load_from_file` observes it. -/
inductive FileState where
  | missing
  | corrupt
  | parsed (entries : List EntryDict)
  deriving DecidableEq, Repr

/-- Python `max` on a list (`none` on the empty list). -/
def listMax : List Int → Option Int
  | [] => none
  | x :: t =>
    match listMax t with
    | none => some x
    | some m => some (max x m)

/-- The id-assignment loop of `load_from_file`: walking the contacts in
order, a contact without an id receives the running `next_id`, which is
then incremented. -/
def assignIds (n : Int) : List Contact → Int × List Contact
  | [] => (n, [])
  | c :: t =>
    match c.id with
    | some _ =>
      let r := assignIds n t
      (r.1, c :: r.2)
    | none =>
      let r := assignIds (n + 1) t
      (r.1, { c with id := some n } :: r.2)

/-- Method `PhoneBook.load_from_file`.  A missing file returns success without
touching any state.  An unparseable file returns failure before any
state is touched (the `json.JSONDecodeError` handler).  A parsed file
replaces `contacts` with the entries `Contact.from_dict` accepts (the
rest are skipped with a warning), recomputes `next_id` as one past the
largest present id (or 1), assigns ids to contacts lacking one, and
resets `modified` to false unless some id was assigned, in which case
`modified` keeps its previous value. -/
def PhoneBook.load_from_file (pb : PhoneBook) (fs : FileState) : Bool × PhoneBook :=
  match fs with
  | .missing => (true, pb)
  | .corrupt => (false, pb)
  | .parsed entries =>
    let cs := entries.filterMap Contact.from_dict
    if cs = [] then
      (true, { contacts := cs, next_id := 1, modified := false })
    else
      let base : Int :=
        match listMax (cs.filterMap Contact.id) with
        | none => 1
        | some m => m + 1
      let r := assignIds base cs
      let assigned := cs.any fun c => c.id.isNone
      (true, { contacts := r.2, next_id := r.1,
               modified := if assigned then pb.modified else false })

/-- Method `PhoneBook.save_to_file` (successful write): the file now holds the
`to_dict` image of the contacts, and `modified` is cleared. -/
def PhoneBook.save_to_file (pb : PhoneBook) : FileState × PhoneBook :=
  (.parsed (pb.contacts.map Contact.to_dict), { pb with modified := false })

/-- Method `PhoneBook.create_contact` with the prompted inputs as parameters
(`input(...).strip()` is the strip below).  An empty name or phone
aborts without mutation; otherwise the new contact takes `next_id` as
id, is appended, `next_id` is incremented and `modified` set. -/
def PhoneBook.create_contact (pb : PhoneBook) (name phone comment : List Char) :
    Option Contact × PhoneBook :=
  let n := pyStrip name
  if n = [] then (none, pb)
  else
    let p := pyStrip phone
    if p = [] then (none, pb)
    else
      let cm := pyStrip comment
      let c := Contact.make n p cm (some pb.next_id)
      (some c,
       { contacts := pb.contacts ++ [c], next_id := pb.next_id + 1, modified := true })

/-- Method `PhoneBook._find_by_id`: first contact with the given id. -/
def PhoneBook.find_by_id (pb : PhoneBook) (contact_id : Int) : Option Contact :=
  pb.contacts.find? fun c => decide (c.id = some contact_id)

/-- The four search modes of `find_contact` (menu choices 1-4; an
invalid choice falls back to the all-fields mode). -/
inductive SearchField where
  | byName
  | byPhone
  | byComment
  | allFields
  deriving DecidableEq, Repr

/-- The match test of `find_contact`: the already lowercased, stripped
term against the lowercased selected field(s). -/
def matchesField (f : SearchField) (t : List Char) (c : Contact) : Bool :=
  match f with
  | .byName => containsSub t (lowerL c.name)
  | .byPhone => containsSub t (lowerL c.phone)
  | .byComment => containsSub t (lowerL c.comment)
  | .allFields =>
      containsSub t (lowerL c.name) || containsSub t (lowerL c.phone) ||
        containsSub t (lowerL c.comment)

/-- What `find_contact` displays. -/
inductive SearchOutcome where
  | emptyBook
  | emptyTerm
  | results (found : List Contact)
  deriving DecidableEq, Repr

/-- Method `PhoneBook.find_contact` with the prompted term as parameter: an
empty book returns at once; the term is stripped and lowercased and, if
then empty, rejected; otherwise the matching contacts in store order. -/
def PhoneBook.find_contact (pb : PhoneBook) (f : SearchField) (term : List Char) :
    SearchOutcome :=
  if pb.contacts = [] then .emptyBook
  else
    let t := lowerL (pyStrip term)
    if t = [] then .emptyTerm
    else .results (pb.contacts.filter (matchesField f t))

/-- The field-update part of `edit_contact`: each prompted value is
stripped; a non-empty value overwrites the field, an empty one leaves
it alone. -/
def applyEdit (new_name new_phone new_comment : List Char) (c : Contact) : Contact :=
  let c1 := if pyStrip new_name = [] then c else { c with name := pyStrip new_name }
  let c2 := if pyStrip new_phone = [] then c1 else { c1 with phone := pyStrip new_phone }
  if pyStrip new_comment = [] then c2 else { c2 with comment := pyStrip new_comment }

/-- In-place mutation of the contact `_find_by_id` returned: rewrite
the first contact carrying the id. -/
def updateFirst (contact_id : Int) (f : Contact → Contact) : List Contact → List Contact
  | [] => []
  | c :: t =>
    if c.id = some contact_id then f c :: t else c :: updateFirst contact_id f t

/-- Method `PhoneBook.edit_contact` with the prompted values as parameters: an
empty book or an unknown id aborts without mutation; otherwise the
found contact is edited in place and `modified` is set (the source sets
it unconditionally once the contact was found). -/
def PhoneBook.edit_contact (pb : PhoneBook) (contact_id : Int)
    (new_name new_phone new_comment : List Char) : Bool × PhoneBook :=
  if pb.contacts = [] then (false, pb)
  else
    match pb.find_by_id contact_id with
    | none => (false, pb)
    | some _ =>
      (true,
       { pb with
         contacts :=
           updateFirst contact_id (applyEdit new_name new_phone new_comment) pb.contacts,
         modified := true })

/-- Python `list.remove` on the object `_find_by_id` returned: drop the first
contact carrying the id. -/
def removeFirst (contact_id : Int) : List Contact → List Contact
  | [] => []
  | c :: t => if c.id = some contact_id then t else c :: removeFirst contact_id t

/-- Method `PhoneBook.delete_contact` (confirmed) with the prompted id as
parameter: an empty book or an unknown id aborts without mutation;
otherwise the found contact is removed and `modified` is set. -/
def PhoneBook.delete_contact (pb : PhoneBook) (contact_id : Int) : Bool × PhoneBook :=
  if pb.contacts = [] then (false, pb)
  else
    match pb.find_by_id contact_id with
    | none => (false, pb)
    | some _ =>
      (true, { pb with contacts := removeFirst contact_id pb.contacts, modified := true })

/-- Helper `PhoneBook._validate_phone`: advisory character check. -/
def validate_phone (phone : List Char) : Bool :=
  phone.all fun c => c ∈ ['0','1','2','3','4','5','6','7','8','9','+','-','(',')',' ']

/-- Method `PhoneBook.has_unsaved_changes`. -/
def PhoneBook.has_unsaved_changes (pb : PhoneBook) : Bool := pb.modified

/-- The id discipline the spec claims of the store: every contact
carries an id, ids are pairwise distinct, and `next_id` lies strictly
above every id. -/
def goodIds (pb : PhoneBook) : Prop :=
  (∀ c ∈ pb.contacts, c.id ≠ none) ∧
    (pb.contacts.filterMap Contact.id).Nodup ∧
      ∀ k ∈ pb.contacts.filterMap Contact.id, k < pb.next_id

instance (pb : PhoneBook) : Decidable (goodIds pb) := by
  unfold goodIds
  infer_instance

/-! ## Whitespace stripping -/

theorem dropWhile_head_not (p : Char → Bool) (l : List Char) :
    l.dropWhile p = [] ∨ ∃ x t, l.dropWhile p = x :: t ∧ p x = false := by
  induction l with
  | nil => exact Or.inl rfl
  | cons a l ih =>
    by_cases hpa : p a = true
    · simpa [List.dropWhile, hpa] using ih
    · simp only [Bool.not_eq_true] at hpa
      exact Or.inr ⟨a, l, by simp [List.dropWhile, hpa], hpa⟩

theorem trimLeft_of_cons_not {x : Char} {t : List Char} (hx : x.isWhitespace = false) :
    trimLeft (x :: t) = x :: t := by
  simp [trimLeft, List.dropWhile, hx]

theorem trimLeft_trimLeft (s : List Char) : trimLeft (trimLeft s) = trimLeft s := by
  rcases dropWhile_head_not Char.isWhitespace s with h | ⟨x, t, h, hx⟩
  · have h' : trimLeft s = [] := h
    rw [h']
    rfl
  · have h' : trimLeft s = x :: t := h
    rw [h']
    exact trimLeft_of_cons_not hx

theorem length_dropWhile_le (p : Char → Bool) (l : List Char) :
    (l.dropWhile p).length ≤ l.length := by
  induction l with
  | nil => simp
  | cons a l ih =>
    by_cases hpa : p a = true
    · simp only [List.dropWhile, hpa]
      exact Nat.le_succ_of_le ih
    · simp only [Bool.not_eq_true] at hpa
      simp [List.dropWhile, hpa]

theorem trimLeft_append_ex (s : List Char) : ∃ u, s = u ++ trimLeft s := by
  induction s with
  | nil => exact ⟨[], rfl⟩
  | cons a l ih =>
    by_cases hpa : a.isWhitespace = true
    · obtain ⟨u, hu⟩ := ih
      refine ⟨a :: u, ?_⟩
      simp only [trimLeft, List.dropWhile, hpa]
      simpa [trimLeft] using hu
    · simp only [Bool.not_eq_true] at hpa
      exact ⟨[], by simp [trimLeft, List.dropWhile, hpa]⟩

theorem trimRight_append_ex (s : List Char) : ∃ u, s = trimRight s ++ u := by
  obtain ⟨u, hu⟩ := trimLeft_append_ex s.reverse
  refine ⟨u.reverse, ?_⟩
  have := congrArg List.reverse hu
  simpa [trimRight] using this

theorem trimLeft_of_fix_of_split {x y d : List Char} (hfix : trimLeft x = x)
    (hsplit : x = y ++ d) : trimLeft y = y := by
  cases y with
  | nil => rfl
  | cons c ys =>
    by_cases hc : c.isWhitespace = true
    · exfalso
      have hx : x = c :: (ys ++ d) := by simpa using hsplit
      have h1 : trimLeft x = trimLeft (ys ++ d) := by
        rw [hx]
        simp [trimLeft, List.dropWhile, hc]
      have h2 : (trimLeft (ys ++ d)).length ≤ (ys ++ d).length :=
        length_dropWhile_le _ _
      have h3 : x.length = (ys ++ d).length + 1 := by rw [hx]; simp
      rw [hfix] at h1
      have h4 : x.length = (trimLeft (ys ++ d)).length := congrArg List.length h1
      omega
    · simp only [Bool.not_eq_true] at hc
      exact trimLeft_of_cons_not hc

theorem trimRight_trimRight (s : List Char) : trimRight (trimRight s) = trimRight s := by
  simp [trimRight, trimLeft_trimLeft]

theorem pyStrip_idem (s : List Char) : pyStrip (pyStrip s) = pyStrip s := by
  have hx : trimLeft (trimLeft s) = trimLeft s := trimLeft_trimLeft s
  obtain ⟨u, hu⟩ := trimRight_append_ex (trimLeft s)
  have hy : trimLeft (trimRight (trimLeft s)) = trimRight (trimLeft s) :=
    trimLeft_of_fix_of_split hx hu
  calc pyStrip (pyStrip s)
      = trimRight (trimLeft (trimRight (trimLeft s))) := rfl
    _ = trimRight (trimRight (trimLeft s)) := by rw [hy]
    _ = trimRight (trimLeft s) := trimRight_trimRight _
    _ = pyStrip s := rfl

/-! ## Substring matching -/

theorem isPrefixOf_ex (t : List Char) : ∀ s : List Char,
    t.isPrefixOf s = true ↔ ∃ r, s = t ++ r := by
  induction t with
  | nil => intro s; simp [List.isPrefixOf]
  | cons a t ih =>
    intro s
    cases s with
    | nil => simp [List.isPrefixOf]
    | cons b u =>
      simp only [List.isPrefixOf, Bool.and_eq_true, beq_iff_eq, ih u]
      constructor
      · rintro ⟨rfl, r, rfl⟩
        exact ⟨r, rfl⟩
      · rintro ⟨r, hr⟩
        obtain ⟨h1, h2⟩ := List.cons.inj hr
        exact ⟨h1.symm, r, h2⟩

theorem containsSub_iff (t : List Char) : ∀ s : List Char,
    containsSub t s = true ↔ ∃ a b, s = a ++ t ++ b := by
  intro s
  induction s with
  | nil =>
    simp only [containsSub, List.isEmpty_iff]
    constructor
    · rintro rfl
      exact ⟨[], [], rfl⟩
    · rintro ⟨a, b, hab⟩
      have hlen := congrArg List.length hab
      simp only [List.length_nil, List.length_append] at hlen
      have ht : t.length = 0 := by omega
      exact List.length_eq_zero.mp ht
  | cons c u ih =>
    simp only [containsSub, Bool.or_eq_true, isPrefixOf_ex, ih]
    constructor
    · rintro (⟨r, hr⟩ | ⟨a, b, hab⟩)
      · exact ⟨[], r, by simpa using hr⟩
      · exact ⟨c :: a, b, by simp [hab]⟩
    · rintro ⟨a, b, hab⟩
      cases a with
      | nil => exact Or.inl ⟨b, by simpa using hab⟩
      | cons a0 as =>
        obtain ⟨h1, h2⟩ := List.cons.inj (by simpa using hab)
        exact Or.inr ⟨as, b, by simp [h2]⟩

/-! ## The id-assignment loop -/

theorem assignIds_fst_ge (l : List Contact) : ∀ n : Int, n ≤ (assignIds n l).1 := by
  induction l with
  | nil => intro n; simp [assignIds]
  | cons c t ih =>
    intro n
    cases hc : c.id with
    | some m => simpa [assignIds, hc] using ih n
    | none =>
      have := ih (n + 1)
      simp only [assignIds, hc]
      omega

theorem assignIds_all_some (l : List Contact) : ∀ n : Int,
    ∀ c ∈ (assignIds n l).2, c.id ≠ none := by
  induction l with
  | nil => intro n c hc; simp [assignIds] at hc
  | cons c t ih =>
    intro n d hd
    cases hc : c.id with
    | some m =>
      simp only [assignIds, hc, List.mem_cons] at hd
      rcases hd with rfl | hd
      · simp [hc]
      · exact ih n d hd
    | none =>
      simp only [assignIds, hc, List.mem_cons] at hd
      rcases hd with rfl | hd
      · simp
      · exact ih (n + 1) d hd

theorem assignIds_map_fields (l : List Contact) : ∀ n : Int,
    (assignIds n l).2.map (fun c => (c.name, c.phone, c.comment)) =
      l.map fun c => (c.name, c.phone, c.comment) := by
  induction l with
  | nil => intro n; simp [assignIds]
  | cons c t ih =>
    intro n
    cases hc : c.id with
    | some m => simp [assignIds, hc, ih n]
    | none => simp [assignIds, hc, ih (n + 1)]

theorem assignIds_mem_ids (l : List Contact) : ∀ n k,
    k ∈ (assignIds n l).2.filterMap Contact.id →
      k ∈ l.filterMap Contact.id ∨ (n ≤ k ∧ k < (assignIds n l).1) := by
  induction l with
  | nil => intro n k hk; simp [assignIds] at hk
  | cons c t ih =>
    intro n k hk
    cases hc : c.id with
    | some m =>
      simp only [assignIds, hc, List.filterMap_cons] at hk ⊢
      simp only [List.mem_cons] at hk
      rcases hk with rfl | hk
      · exact Or.inl (List.mem_cons_self _ _)
      · rcases ih n k hk with h | h
        · exact Or.inl (List.mem_cons_of_mem _ h)
        · exact Or.inr h
    | none =>
      simp only [assignIds, hc, List.filterMap_cons] at hk ⊢
      simp only [List.mem_cons] at hk
      rcases hk with rfl | hk
      · refine Or.inr ⟨le_refl k, ?_⟩
        have := assignIds_fst_ge t (k + 1)
        omega
      · rcases ih (n + 1) k hk with h | h
        · exact Or.inl h
        · exact Or.inr ⟨by omega, h.2⟩

theorem assignIds_nodup (l : List Contact) : ∀ n : Int,
    (l.filterMap Contact.id).Nodup →
    (∀ k ∈ l.filterMap Contact.id, k < n) →
      ((assignIds n l).2.filterMap Contact.id).Nodup := by
  induction l with
  | nil => intro n _ _; simp [assignIds]
  | cons c t ih =>
    intro n hnd hlt
    cases hc : c.id with
    | some m =>
      simp only [List.filterMap_cons, hc] at hnd hlt
      simp only [assignIds, hc, List.filterMap_cons]
      rw [List.nodup_cons] at hnd ⊢
      refine ⟨?_, ih n hnd.2 fun k hk => hlt k (List.mem_cons_of_mem _ hk)⟩
      intro hmem
      rcases assignIds_mem_ids t n m hmem with h | h
      · exact hnd.1 h
      · have := hlt m (List.mem_cons_self _ _)
        omega
    | none =>
      simp only [List.filterMap_cons, hc] at hnd hlt
      simp only [assignIds, hc, List.filterMap_cons]
      rw [List.nodup_cons]
      refine ⟨?_, ih (n + 1) hnd fun k hk => by have := hlt k hk; omega⟩
      intro hmem
      rcases assignIds_mem_ids t (n + 1) n hmem with h | h
      · have := hlt n h
        omega
      · omega

theorem assignIds_no_none (l : List Contact) (n : Int)
    (h : ∀ c ∈ l, c.id ≠ none) : assignIds n l = (n, l) := by
  induction l with
  | nil => rfl
  | cons c t ih =>
    cases hc : c.id with
    | some m =>
      have ht := ih fun d hd => h d (List.mem_cons_of_mem _ hd)
      simp [assignIds, hc, ht]
    | none => exact absurd hc (h c (List.mem_cons_self _ _))

/-! ## Python max, find?, and list surgery -/

theorem listMax_ge (l : List Int) : ∀ k ∈ l, ∃ m, listMax l = some m ∧ k ≤ m := by
  induction l with
  | nil => intro k hk; simp at hk
  | cons x t ih =>
    intro k hk
    rcases List.mem_cons.mp hk with rfl | hk
    · cases ht : listMax t with
      | none => exact ⟨k, by simp [listMax, ht], le_refl k⟩
      | some m => exact ⟨max k m, by simp [listMax, ht], le_max_left _ _⟩
    · obtain ⟨m, hm, hkm⟩ := ih k hk
      refine ⟨max x m, ?_, le_trans hkm (le_max_right _ _)⟩
      simp [listMax, hm]

theorem listMax_eq_none (l : List Int) : listMax l = none ↔ l = [] := by
  cases l with
  | nil => simp [listMax]
  | cons x t =>
    simp only [listMax]
    cases listMax t <;> simp

theorem find?_decomp {p : Contact → Bool} {l : List Contact} {c : Contact}
    (h : l.find? p = some c) :
    ∃ pre post, l = pre ++ c :: post ∧ (∀ x ∈ pre, p x = false) ∧ p c = true := by
  induction l with
  | nil => simp at h
  | cons a t ih =>
    by_cases hpa : p a = true
    · rw [List.find?_cons_of_pos _ hpa] at h
      obtain rfl : a = c := by simpa using h
      exact ⟨[], t, rfl, by simp, hpa⟩
    · simp only [Bool.not_eq_true] at hpa
      rw [List.find?_cons_of_neg _ (by simp [hpa])] at h
      obtain ⟨pre, post, hsplit, hpre, hc⟩ := ih h
      refine ⟨a :: pre, post, by simp [hsplit], ?_, hc⟩
      intro x hx
      rcases List.mem_cons.mp hx with rfl | hx
      · exact hpa
      · exact hpre x hx

theorem updateFirst_append (contact_id : Int) (f : Contact → Contact) :
    ∀ pre : List Contact, (∀ x ∈ pre, x.id ≠ some contact_id) →
    ∀ c : Contact, c.id = some contact_id → ∀ post : List Contact,
      updateFirst contact_id f (pre ++ c :: post) = pre ++ f c :: post := by
  intro pre
  induction pre with
  | nil =>
    intro _ c hc post
    simp [updateFirst, hc]
  | cons a t ih =>
    intro hpre c hc post
    have ha : ¬a.id = some contact_id := hpre a (List.mem_cons_self _ _)
    simp only [List.cons_append, updateFirst, if_neg ha, List.append_eq]
    rw [ih (fun x hx => hpre x (List.mem_cons_of_mem _ hx)) c hc post]

theorem updateFirst_map_id (contact_id : Int) (f : Contact → Contact)
    (hf : ∀ c, (f c).id = c.id) :
    ∀ l : List Contact, (updateFirst contact_id f l).map Contact.id = l.map Contact.id := by
  intro l
  induction l with
  | nil => rfl
  | cons c t ih =>
    by_cases hc : c.id = some contact_id
    · simp [updateFirst, hc, hf]
    · simp [updateFirst, hc, ih]

theorem removeFirst_sublist (contact_id : Int) :
    ∀ l : List Contact, List.Sublist (removeFirst contact_id l) l := by
  intro l
  induction l with
  | nil => exact List.Sublist.refl _
  | cons c t ih =>
    by_cases hc : c.id = some contact_id
    · simp only [removeFirst, if_pos hc]
      exact List.sublist_cons_of_sublist _ (List.Sublist.refl _)
    · simp only [removeFirst, if_neg hc]
      exact List.Sublist.cons₂ _ ih

theorem filterMap_id_of_map_id_eq :
    ∀ l l' : List Contact, l.map Contact.id = l'.map Contact.id →
      l.filterMap Contact.id = l'.filterMap Contact.id := by
  intro l
  induction l with
  | nil =>
    intro l' h
    cases l' with
    | nil => rfl
    | cons b u => simp at h
  | cons a t ih =>
    intro l' h
    cases l' with
    | nil => simp at h
    | cons b u =>
      simp only [List.map_cons, List.cons.injEq] at h
      simp only [List.filterMap_cons, h.1, ih u h.2]

/-! ## Stripped fields and the save format -/

/-- All three text fields are strip-fixed (true of every contact the
store constructs). -/
def strippedContact (c : Contact) : Prop :=
  pyStrip c.name = c.name ∧ pyStrip c.phone = c.phone ∧ pyStrip c.comment = c.comment

theorem make_stripped (name phone comment : List Char) (contact_id : Option Int) :
    strippedContact (Contact.make name phone comment contact_id) :=
  ⟨pyStrip_idem name, pyStrip_idem phone, pyStrip_idem comment⟩

theorem from_dict_stripped {d : EntryDict} {c : Contact}
    (h : Contact.from_dict d = some c) : strippedContact c := by
  unfold Contact.from_dict at h
  cases hn : d.name with
  | none => rw [hn] at h; exact absurd h (by simp)
  | some n =>
    cases hp : d.phone with
    | none => rw [hn, hp] at h; exact absurd h (by simp)
    | some p =>
      rw [hn, hp] at h
      obtain rfl : Contact.make n p (d.comment.getD []) d.id = c := by simpa using h
      exact make_stripped _ _ _ _

theorem assignIds_stripped (l : List Contact) : ∀ n : Int,
    (∀ c ∈ l, strippedContact c) → ∀ c ∈ (assignIds n l).2, strippedContact c := by
  induction l with
  | nil => intro n _ c hc; simp [assignIds] at hc
  | cons a t ih =>
    intro n hl c hc
    cases ha : a.id with
    | some m =>
      simp only [assignIds, ha, List.mem_cons] at hc
      rcases hc with rfl | hc
      · exact hl _ (List.mem_cons_self _ _)
      · exact ih n (fun d hd => hl d (List.mem_cons_of_mem _ hd)) c hc
    | none =>
      simp only [assignIds, ha, List.mem_cons] at hc
      rcases hc with rfl | hc
      · obtain ⟨h1, h2, h3⟩ := hl a (List.mem_cons_self _ _)
        exact ⟨h1, h2, h3⟩
      · exact ih (n + 1) (fun d hd => hl d (List.mem_cons_of_mem _ hd)) c hc

theorem from_dict_to_dict {c : Contact} (h : strippedContact c) :
    Contact.from_dict (Contact.to_dict c) = some c := by
  obtain ⟨h1, h2, h3⟩ := h
  simp [Contact.from_dict, Contact.to_dict, Contact.make, h1, h2, h3]

theorem filterMap_self {f : Contact → Option Contact} :
    ∀ l : List Contact, (∀ c ∈ l, f c = some c) → l.filterMap f = l := by
  intro l
  induction l with
  | nil => intro _; rfl
  | cons a t ih =>
    intro h
    simp only [List.filterMap_cons, h a (List.mem_cons_self _ _)]
    rw [ih fun c hc => h c (List.mem_cons_of_mem _ hc)]

/-! ## Unfolding load on a parsed file -/

/-- The `next_id` base `load_from_file` computes: one past the largest
id present among the accepted entries, or 1 when none carries an id. -/
def loadBase (entries : List EntryDict) : Int :=
  match listMax ((entries.filterMap Contact.from_dict).filterMap Contact.id) with
  | none => 1
  | some m => m + 1

theorem load_parsed_empty (pb : PhoneBook) (entries : List EntryDict)
    (h : entries.filterMap Contact.from_dict = []) :
    pb.load_from_file (.parsed entries) =
      (true, { contacts := [], next_id := 1, modified := false }) := by
  simp [PhoneBook.load_from_file, h]

theorem load_parsed_nonempty (pb : PhoneBook) (entries : List EntryDict)
    (h : entries.filterMap Contact.from_dict ≠ []) :
    pb.load_from_file (.parsed entries) =
      (true,
       { contacts := (assignIds (loadBase entries) (entries.filterMap Contact.from_dict)).2,
         next_id := (assignIds (loadBase entries) (entries.filterMap Contact.from_dict)).1,
         modified :=
           if (entries.filterMap Contact.from_dict).any fun c => c.id.isNone
           then pb.modified else false }) := by
  simp only [PhoneBook.load_from_file]
  rw [if_neg h]
  rfl

theorem from_dict_none_iff (d : EntryDict) :
    Contact.from_dict d = none ↔ (d.name = none ∨ d.phone = none) := by
  cases hn : d.name <;> cases hp : d.phone <;> simp [Contact.from_dict, hn, hp]

/-! ## The claims -/

/-- A store with one contact and unsaved changes: the state before the
C3 load of a missing file. -/
def pbPriorC3 : PhoneBook :=
  { contacts := [{ id := some 1, name := ['a'], phone := ['1'], comment := [] }],
    next_id := 2, modified := true }

/-- C3 counterexample: a store that already holds a contact and has
unsaved changes loads a missing file; the call returns success but the
store still holds one record and the dirty flag is still true, not the
claimed zero records with a false flag (the source returns before
touching any state). -/
theorem load_missing_keeps_state_cex :
    (pbPriorC3.load_from_file .missing).1 = true ∧
      (pbPriorC3.load_from_file .missing).2.contacts ≠ [] ∧
        (pbPriorC3.load_from_file .missing).2.modified = true := by
  decide

/-- C3 (amended): calling `load_from_file` when no file exists returns
success and leaves the whole store state unchanged — in particular a
fresh store stays empty with the dirty flag false. -/
theorem load_missing_file_noop (pb : PhoneBook) :
    pb.load_from_file .missing = (true, pb) := rfl

/-- C4: when the file exists but is not parseable, `load_from_file`
reports failure and the records, `next_id` and dirty flag are exactly
what they were before the call. -/
theorem load_corrupt_file_atomic (pb : PhoneBook) :
    (pb.load_from_file .corrupt).1 = false ∧
      (pb.load_from_file .corrupt).2.contacts = pb.contacts ∧
        (pb.load_from_file .corrupt).2.next_id = pb.next_id ∧
          (pb.load_from_file .corrupt).2.modified = pb.modified :=
  ⟨rfl, rfl, rfl, rfl⟩

/-- C5: a parsed load always succeeds; an entry is dropped by
`Contact.from_dict` exactly when its `name` or `phone` key is missing,
and the store ends up with exactly the accepted entries, in file order
(witnessed by the text fields, since the load may still fill in ids). -/
theorem load_skips_invalid_entries (entries : List EntryDict) (pb : PhoneBook) :
    (pb.load_from_file (.parsed entries)).1 = true ∧
      (pb.load_from_file (.parsed entries)).2.contacts.map
          (fun c => (c.name, c.phone, c.comment)) =
        (entries.filterMap Contact.from_dict).map (fun c => (c.name, c.phone, c.comment)) ∧
      ∀ d : EntryDict, Contact.from_dict d = none ↔ (d.name = none ∨ d.phone = none) := by
  refine ⟨?_, ?_, from_dict_none_iff⟩
  · by_cases h : entries.filterMap Contact.from_dict = []
    · rw [load_parsed_empty pb entries h]
    · rw [load_parsed_nonempty pb entries h]
  · by_cases h : entries.filterMap Contact.from_dict = []
    · rw [load_parsed_empty pb entries h, h]
    · rw [load_parsed_nonempty pb entries h]
      exact assignIds_map_fields _ _

/-- A file whose two entries both carry id 1. -/
def entriesDupIds : List EntryDict :=
  [{ id := some 1, name := some ['a'], phone := some ['1'], comment := none, note := none },
   { id := some 1, name := some ['b'], phone := some ['2'], comment := none, note := none }]

/-- C1 counterexample: loading a file whose entries carry the duplicate
id 1 succeeds and keeps both ids as they are, so the record ids are not
pairwise distinct afterwards (the load only repairs missing ids, never
duplicates). -/
theorem load_duplicate_ids_cex :
    (PhoneBook.init.load_from_file (.parsed entriesDupIds)).1 = true ∧
      (PhoneBook.init.load_from_file (.parsed entriesDupIds)).2.contacts.filterMap
          Contact.id = [1, 1] ∧
        ¬ ((PhoneBook.init.load_from_file (.parsed entriesDupIds)).2.contacts.filterMap
            Contact.id).Nodup := by
  decide

theorem load_ids_below_next (entries : List EntryDict) (pb : PhoneBook) :
    ∀ k ∈ (pb.load_from_file (.parsed entries)).2.contacts.filterMap Contact.id,
      k < (pb.load_from_file (.parsed entries)).2.next_id := by
  by_cases h : entries.filterMap Contact.from_dict = []
  · rw [load_parsed_empty pb entries h]
    intro k hk
    simp at hk
  · rw [load_parsed_nonempty pb entries h]
    intro k hk
    show k < (assignIds (loadBase entries) (entries.filterMap Contact.from_dict)).1
    rcases assignIds_mem_ids _ _ k hk with hin | hr
    · obtain ⟨m, hm, hkm⟩ := listMax_ge _ k hin
      have hbase : loadBase entries = m + 1 := by simp [loadBase, hm]
      have := assignIds_fst_ge (entries.filterMap Contact.from_dict) (loadBase entries)
      omega
    · exact hr.2

theorem load_ids_all_some (entries : List EntryDict) (pb : PhoneBook) :
    ∀ c ∈ (pb.load_from_file (.parsed entries)).2.contacts, c.id ≠ none := by
  by_cases h : entries.filterMap Contact.from_dict = []
  · rw [load_parsed_empty pb entries h]
    intro c hc
    simp at hc
  · rw [load_parsed_nonempty pb entries h]
    exact assignIds_all_some _ _

theorem load_ids_nodup (entries : List EntryDict) (pb : PhoneBook)
    (hnd : ((entries.filterMap Contact.from_dict).filterMap Contact.id).Nodup) :
    ((pb.load_from_file (.parsed entries)).2.contacts.filterMap Contact.id).Nodup := by
  by_cases h : entries.filterMap Contact.from_dict = []
  · rw [load_parsed_empty pb entries h]
    simp
  · rw [load_parsed_nonempty pb entries h]
    refine assignIds_nodup _ _ hnd ?_
    intro k hk
    obtain ⟨m, hm, hkm⟩ := listMax_ge _ k hk
    have hbase : loadBase entries = m + 1 := by simp [loadBase, hm]
    omega

theorem applyEdit_id (new_name new_phone new_comment : List Char) (c : Contact) :
    (applyEdit new_name new_phone new_comment c).id = c.id := by
  simp only [applyEdit]
  split_ifs <;> rfl

theorem goodIds_of_map_id_eq {pb pb' : PhoneBook}
    (hmap : pb'.contacts.map Contact.id = pb.contacts.map Contact.id)
    (hnid : pb'.next_id = pb.next_id) (h : goodIds pb) : goodIds pb' := by
  obtain ⟨g1, g2, g3⟩ := h
  have hfm := filterMap_id_of_map_id_eq _ _ hmap
  refine ⟨?_, by rw [hfm]; exact g2, ?_⟩
  · intro c hc
    have hmem : c.id ∈ pb'.contacts.map Contact.id := List.mem_map_of_mem _ hc
    rw [hmap] at hmem
    obtain ⟨y, hy, hyid⟩ := List.mem_map.mp hmem
    rw [← hyid]
    exact g1 y hy
  · intro k hk
    rw [hfm] at hk
    rw [hnid]
    exact g3 k hk

/-- C1 (amended): after every successful load every record has a
non-null id and `next_id` strictly exceeds every record id; the ids are
moreover pairwise distinct provided the ids already present among the
accepted file entries were distinct (a file carrying duplicate ids is
loaded as-is).  Create preserves the full discipline, as do update and
delete. -/
theorem store_id_invariants :
    (∀ (entries : List EntryDict) (pb : PhoneBook),
      (∀ c ∈ (pb.load_from_file (.parsed entries)).2.contacts, c.id ≠ none) ∧
        (∀ k ∈ (pb.load_from_file (.parsed entries)).2.contacts.filterMap Contact.id,
          k < (pb.load_from_file (.parsed entries)).2.next_id) ∧
          (((entries.filterMap Contact.from_dict).filterMap Contact.id).Nodup →
            ((pb.load_from_file (.parsed entries)).2.contacts.filterMap Contact.id).Nodup)) ∧
      (∀ (pb : PhoneBook) (name phone comment : List Char), goodIds pb →
        goodIds (pb.create_contact name phone comment).2) ∧
        (∀ (pb : PhoneBook) (contact_id : Int) (nn np nc : List Char), goodIds pb →
          goodIds (pb.edit_contact contact_id nn np nc).2) ∧
          (∀ (pb : PhoneBook) (contact_id : Int), goodIds pb →
            goodIds (pb.delete_contact contact_id).2) := by
  refine ⟨fun entries pb => ⟨load_ids_all_some entries pb, load_ids_below_next entries pb,
    load_ids_nodup entries pb⟩, ?_, ?_, ?_⟩
  · intro pb name phone comment hg
    by_cases hn : pyStrip name = []
    · simpa [PhoneBook.create_contact, hn] using hg
    by_cases hp : pyStrip phone = []
    · simpa [PhoneBook.create_contact, hn, hp] using hg
    obtain ⟨g1, g2, g3⟩ := hg
    have heq : (pb.create_contact name phone comment).2 =
        { contacts := pb.contacts ++
            [Contact.make (pyStrip name) (pyStrip phone) (pyStrip comment) (some pb.next_id)],
          next_id := pb.next_id + 1, modified := true } := by
      simp [PhoneBook.create_contact, hn, hp]
    rw [heq]
    refine ⟨?_, ?_, ?_⟩
    · intro c hc
      rcases List.mem_append.mp hc with hc | hc
      · exact g1 c hc
      · obtain rfl : c = Contact.make (pyStrip name) (pyStrip phone) (pyStrip comment)
            (some pb.next_id) := by simpa using hc
        simp [Contact.make]
    · rw [List.filterMap_append]
      rw [List.nodup_append]
      refine ⟨g2, by simp [Contact.make], ?_⟩
      intro k hk hk'
      have hlt := g3 k hk
      have : k = pb.next_id := by
        simpa [Contact.make] using hk'
      omega
    · intro k hk
      show k < pb.next_id + 1
      rw [List.filterMap_append] at hk
      rcases List.mem_append.mp hk with hk | hk
      · have := g3 k hk
        omega
      · have : k = pb.next_id := by simpa [Contact.make] using hk
        omega
  · intro pb contact_id nn np nc hg
    by_cases hce : pb.contacts = []
    · simpa [PhoneBook.edit_contact, hce] using hg
    cases hf : pb.find_by_id contact_id with
    | none => simpa [PhoneBook.edit_contact, hce, hf] using hg
    | some c =>
      have heq : (pb.edit_contact contact_id nn np nc).2 =
          { pb with
            contacts := updateFirst contact_id (applyEdit nn np nc) pb.contacts,
            modified := true } := by
        simp [PhoneBook.edit_contact, hce, hf]
      rw [heq]
      exact goodIds_of_map_id_eq
        (updateFirst_map_id contact_id _ (applyEdit_id nn np nc) pb.contacts) rfl hg
  · intro pb contact_id hg
    by_cases hce : pb.contacts = []
    · simpa [PhoneBook.delete_contact, hce] using hg
    cases hf : pb.find_by_id contact_id with
    | none => simpa [PhoneBook.delete_contact, hce, hf] using hg
    | some c =>
      obtain ⟨g1, g2, g3⟩ := hg
      have hsub := removeFirst_sublist contact_id pb.contacts
      have hfsub := hsub.filterMap Contact.id
      have heq : (pb.delete_contact contact_id).2 =
          { pb with contacts := removeFirst contact_id pb.contacts, modified := true } := by
        simp [PhoneBook.delete_contact, hce, hf]
      rw [heq]
      refine ⟨?_, g2.sublist hfsub, ?_⟩
      · intro x hx
        exact g1 x (hsub.subset hx)
      · intro k hk
        exact g3 k (hfsub.subset hk)

/-- A well-formed two-contact store used to instantiate the id
discipline theorem. -/
def pbIdsW : PhoneBook :=
  { contacts := [{ id := some 1, name := ['a'], phone := ['1'], comment := [] },
                 { id := some 4, name := ['b'], phone := ['2'], comment := [] }],
    next_id := 5, modified := false }

theorem store_id_invariants_witness :
    goodIds (pbIdsW.create_contact ['c'] ['3'] []).2 ∧
      goodIds (pbIdsW.edit_contact 4 ['d'] [] []).2 ∧
        goodIds (pbIdsW.delete_contact 1).2 :=
  ⟨store_id_invariants.2.1 pbIdsW ['c'] ['3'] [] (by decide),
   store_id_invariants.2.2.1 pbIdsW 4 ['d'] [] [] (by decide),
   store_id_invariants.2.2.2 pbIdsW 1 (by decide)⟩

/-- A file whose only entry lacks an id. -/
def entriesNoId : List EntryDict :=
  [{ id := none, name := some ['a'], phone := some ['1'], comment := none, note := none }]

/-- C2 counterexample: a fresh store (dirty flag false) loads a file
whose only entry lacks an id; the load succeeds and assigns id 1, yet
the dirty flag is false afterwards, not true as claimed — the source
merely skips the reset of `modified` instead of setting it. -/
theorem load_dirty_after_assignment_cex :
    (PhoneBook.init.load_from_file (.parsed entriesNoId)).1 = true ∧
      entriesNoId.map EntryDict.id = [none] ∧
        (PhoneBook.init.load_from_file (.parsed entriesNoId)).2.contacts.map Contact.id
            = [some 1] ∧
          (PhoneBook.init.load_from_file (.parsed entriesNoId)).2.modified = false := by
  decide

/-- C2 (amended): a parsed load always succeeds; afterwards the dirty
flag is false when no accepted record lacked an id, and when at least
one id was assigned the dirty flag keeps the value it had before the
call (so it becomes true only if it already was true). -/
theorem load_dirty_flag_spec (entries : List EntryDict) (pb : PhoneBook) :
    (pb.load_from_file (.parsed entries)).1 = true ∧
      (((entries.filterMap Contact.from_dict).any fun c => c.id.isNone) = true →
        (pb.load_from_file (.parsed entries)).2.modified = pb.modified) ∧
        (((entries.filterMap Contact.from_dict).any fun c => c.id.isNone) = false →
          (pb.load_from_file (.parsed entries)).2.modified = false) := by
  by_cases h : entries.filterMap Contact.from_dict = []
  · rw [load_parsed_empty pb entries h]
    refine ⟨rfl, ?_, fun _ => rfl⟩
    intro ha
    rw [h] at ha
    simp at ha
  · rw [load_parsed_nonempty pb entries h]
    refine ⟨rfl, ?_, ?_⟩
    · intro ha
      show (if (entries.filterMap Contact.from_dict).any (fun c => c.id.isNone) then
        pb.modified else false) = pb.modified
      rw [ha]
      rfl
    · intro ha
      show (if (entries.filterMap Contact.from_dict).any (fun c => c.id.isNone) then
        pb.modified else false) = false
      rw [ha]
      rfl

/-- A store with unsaved changes, used to instantiate the dirty-flag
behaviour of load. -/
def pbDirtyW : PhoneBook :=
  { contacts := [], next_id := 1, modified := true }

theorem load_dirty_flag_spec_witness :
    (pbDirtyW.load_from_file (.parsed entriesNoId)).2.modified = pbDirtyW.modified ∧
      (PhoneBook.init.load_from_file (.parsed [])).2.modified = false :=
  ⟨(load_dirty_flag_spec entriesNoId pbDirtyW).2.1 (by decide),
   (load_dirty_flag_spec [] PhoneBook.init).2.2 (by decide)⟩

/-- C6: create with a name or phone that strips to empty fails and
leaves the store untouched; with both non-empty it returns the new
contact, appends exactly it, gives it the pre-call `next_id` as id,
increments `next_id` by one and sets the dirty flag. -/
theorem create_contact_spec (pb : PhoneBook) (name phone comment : List Char) :
    (pyStrip name = [] ∨ pyStrip phone = [] →
      pb.create_contact name phone comment = (none, pb)) ∧
      (pyStrip name ≠ [] → pyStrip phone ≠ [] →
        pb.create_contact name phone comment =
          (some (Contact.make (pyStrip name) (pyStrip phone) (pyStrip comment)
              (some pb.next_id)),
           { contacts := pb.contacts ++
               [Contact.make (pyStrip name) (pyStrip phone) (pyStrip comment)
                 (some pb.next_id)],
             next_id := pb.next_id + 1, modified := true }) ∧
          (Contact.make (pyStrip name) (pyStrip phone) (pyStrip comment)
              (some pb.next_id)).id = some pb.next_id) := by
  constructor
  · rintro (h | h)
    · simp [PhoneBook.create_contact, h]
    · by_cases hn : pyStrip name = [] <;> simp [PhoneBook.create_contact, hn, h]
  · intro hn hp
    exact ⟨by simp [PhoneBook.create_contact, hn, hp], rfl⟩

theorem create_contact_spec_witness :
    PhoneBook.init.create_contact [' '] ['1'] [] = (none, PhoneBook.init) ∧
      (PhoneBook.init.create_contact ['B'] ['1'] []).2.next_id = 2 ∧
        (PhoneBook.init.create_contact ['B'] ['1'] []).2.modified = true := by
  refine ⟨(create_contact_spec PhoneBook.init [' '] ['1'] []).1 (Or.inl (by decide)), ?_, ?_⟩
  · rw [((create_contact_spec PhoneBook.init ['B'] ['1'] []).2 (by decide) (by decide)).1]
    decide
  · rw [((create_contact_spec PhoneBook.init ['B'] ['1'] []).2 (by decide) (by decide)).1]

/-- C7: search on an empty book shows nothing at once; otherwise a term
that strips to empty is rejected with no results; otherwise the result
is exactly the ordered sublist of contacts whose selected field(s)
contain the lowercased term — where containment is literal substring
occurrence, and the all-fields mode matches when any of the three
fields does. -/
theorem find_contact_spec (pb : PhoneBook) (f : SearchField) (term : List Char) :
    (pb.contacts = [] → pb.find_contact f term = .emptyBook) ∧
      (pb.contacts ≠ [] → pyStrip term = [] → pb.find_contact f term = .emptyTerm) ∧
        (pb.contacts ≠ [] → pyStrip term ≠ [] →
          pb.find_contact f term =
              .results (pb.contacts.filter (matchesField f (lowerL (pyStrip term)))) ∧
            List.Sublist (pb.contacts.filter (matchesField f (lowerL (pyStrip term))))
              pb.contacts ∧
            ∀ c, c ∈ pb.contacts.filter (matchesField f (lowerL (pyStrip term))) ↔
              c ∈ pb.contacts ∧ matchesField f (lowerL (pyStrip term)) c = true) ∧
          ∀ (c : Contact) (t : List Char),
            matchesField .allFields t c = true ↔
              ((∃ a b, lowerL c.name = a ++ t ++ b) ∨ (∃ a b, lowerL c.phone = a ++ t ++ b) ∨
                ∃ a b, lowerL c.comment = a ++ t ++ b) := by
  refine ⟨?_, ?_, ?_, ?_⟩
  · intro h
    simp [PhoneBook.find_contact, h]
  · intro h1 h2
    simp [PhoneBook.find_contact, h1, lowerL, h2]
  · intro h1 h2
    have hl : lowerL (pyStrip term) ≠ [] := by
      simpa [lowerL] using h2
    refine ⟨by simp [PhoneBook.find_contact, h1, hl], List.filter_sublist _, ?_⟩
    intro c
    simp [List.mem_filter]
  · intro c t
    simp [matchesField, Bool.or_eq_true, containsSub_iff, or_assoc]

/-- The search fixture from the spec: Ivan Petrov, Maria (whose note
mentions Ivan), and Oleg. -/
def pbSearchW : PhoneBook :=
  { contacts :=
      [{ id := some 1, name := ['I','v','a','n',' ','P','e','t','r','o','v'],
         phone := ['1'], comment := [] },
       { id := some 2, name := ['M','a','r','i','a'], phone := ['2'],
         comment := ['a','s','k',' ','I','v','a','n'] },
       { id := some 3, name := ['O','l','e','g'], phone := ['3'], comment := [] }],
    next_id := 4, modified := false }

theorem find_contact_spec_witness :
    pbSearchW.find_contact .allFields ['i','v','a','n'] =
      .results
        [{ id := some 1, name := ['I','v','a','n',' ','P','e','t','r','o','v'],
           phone := ['1'], comment := [] },
         { id := some 2, name := ['M','a','r','i','a'], phone := ['2'],
           comment := ['a','s','k',' ','I','v','a','n'] }] := by
  rw [((find_contact_spec pbSearchW .allFields ['i','v','a','n']).2.2.1
    (by decide) (by decide)).1]
  decide

/-- A one-contact store used to exercise edit with all-empty inputs. -/
def pbEditCex : PhoneBook :=
  { contacts := [{ id := some 1, name := ['a'], phone := ['1'], comment := [] }],
    next_id := 2, modified := false }

/-- C8 counterexample: editing an existing contact while supplying
empty strings for every field changes nothing in the record, yet the
dirty flag becomes true — the source sets `modified` unconditionally
once the contact is found, so the claimed "if and only if a field
actually changed" fails. -/
theorem edit_contact_dirty_cex :
    (pbEditCex.edit_contact 1 [] [] []).2.contacts = pbEditCex.contacts ∧
      pbEditCex.modified = false ∧
        (pbEditCex.edit_contact 1 [] [] []).2.modified = true := by
  decide

theorem applyEdit_name (new_name new_phone new_comment : List Char) (c : Contact) :
    (applyEdit new_name new_phone new_comment c).name =
      if pyStrip new_name = [] then c.name else pyStrip new_name := by
  simp only [applyEdit]
  split_ifs <;> rfl

theorem applyEdit_phone (new_name new_phone new_comment : List Char) (c : Contact) :
    (applyEdit new_name new_phone new_comment c).phone =
      if pyStrip new_phone = [] then c.phone else pyStrip new_phone := by
  simp only [applyEdit]
  split_ifs <;> rfl

theorem applyEdit_comment (new_name new_phone new_comment : List Char) (c : Contact) :
    (applyEdit new_name new_phone new_comment c).comment =
      if pyStrip new_comment = [] then c.comment else pyStrip new_comment := by
  simp only [applyEdit]
  split_ifs <;> rfl

/-- C8 (amended): updating an id present in the store succeeds; every
supplied field that is non-empty after trimming overwrites the
corresponding field of the first contact carrying the id, an empty one
leaves the field unchanged, the contact's id and every other record are
untouched — and the dirty flag is set to true unconditionally, even
when nothing changed. -/
theorem edit_contact_spec (pb : PhoneBook) (contact_id : Int)
    (new_name new_phone new_comment : List Char) (c : Contact)
    (h : pb.find_by_id contact_id = some c) :
    ∃ pre post,
      pb.contacts = pre ++ c :: post ∧
        (∀ x ∈ pre, x.id ≠ some contact_id) ∧
          c.id = some contact_id ∧
            pb.edit_contact contact_id new_name new_phone new_comment =
                (true,
                 { pb with
                   contacts := pre ++ applyEdit new_name new_phone new_comment c :: post,
                   modified := true }) ∧
              (applyEdit new_name new_phone new_comment c).id = c.id ∧
                (applyEdit new_name new_phone new_comment c).name =
                    (if pyStrip new_name = [] then c.name else pyStrip new_name) ∧
                  (applyEdit new_name new_phone new_comment c).phone =
                      (if pyStrip new_phone = [] then c.phone else pyStrip new_phone) ∧
                    (applyEdit new_name new_phone new_comment c).comment =
                      (if pyStrip new_comment = [] then c.comment else pyStrip new_comment) := by
  obtain ⟨pre, post, hsplit, hpre, hc⟩ := find?_decomp h
  have hpre' : ∀ x ∈ pre, x.id ≠ some contact_id := by
    intro x hx
    have := hpre x hx
    simpa using this
  have hcid : c.id = some contact_id := by simpa using hc
  have hne : pb.contacts ≠ [] := by
    rw [hsplit]
    simp
  refine ⟨pre, post, hsplit, hpre', hcid, ?_, applyEdit_id _ _ _ _,
    applyEdit_name _ _ _ _, applyEdit_phone _ _ _ _, applyEdit_comment _ _ _ _⟩
  have hupd : updateFirst contact_id (applyEdit new_name new_phone new_comment)
      pb.contacts = pre ++ applyEdit new_name new_phone new_comment c :: post := by
    rw [hsplit]
    exact updateFirst_append contact_id _ pre hpre' c hcid post
  simp [PhoneBook.edit_contact, hne, h, hupd]

theorem edit_contact_spec_witness :
    ∃ pre post,
      pbEditCex.contacts =
          pre ++ { id := some 1, name := ['a'], phone := ['1'], comment := [] } :: post ∧
        (∀ x ∈ pre, x.id ≠ some 1) ∧
          ({ id := some 1, name := ['a'], phone := ['1'], comment := [] } : Contact).id
              = some 1 ∧
            pbEditCex.edit_contact 1 ['b'] [] [] =
                (true,
                 { pbEditCex with
                   contacts := pre ++ applyEdit ['b'] [] []
                     { id := some 1, name := ['a'], phone := ['1'], comment := [] } :: post,
                   modified := true }) ∧
              (applyEdit ['b'] [] []
                  { id := some 1, name := ['a'], phone := ['1'], comment := [] }).id
                  = some 1 ∧
                (applyEdit ['b'] [] []
                    { id := some 1, name := ['a'], phone := ['1'], comment := [] }).name
                    = (if pyStrip ['b'] = [] then ['a'] else pyStrip ['b']) ∧
                  (applyEdit ['b'] [] []
                      { id := some 1, name := ['a'], phone := ['1'], comment := [] }).phone
                      = (if pyStrip [] = [] then ['1'] else pyStrip ([] : List Char)) ∧
                    (applyEdit ['b'] [] []
                        { id := some 1, name := ['a'], phone := ['1'], comment := [] }).comment
                      = (if pyStrip [] = [] then [] else pyStrip ([] : List Char)) :=
  edit_contact_spec pbEditCex 1 ['b'] [] []
    { id := some 1, name := ['a'], phone := ['1'], comment := [] } (by decide)

/-- An entry carrying its free text under the `note` key. -/
def entryNoteKey : EntryDict :=
  { id := none, name := some ['a'], phone := some ['1'], comment := none,
    note := some ['x'] }

/-- C9 counterexample: an entry with `name`, `phone` and a `note` key
holding the text x loads into a record whose note field is empty, not
x — `Contact.from_dict` reads only the `comment` key and ignores
`note`. -/
theorem from_dict_note_key_cex :
    entryNoteKey.note = some ['x'] ∧
      Contact.from_dict entryNoteKey =
          some { id := none, name := ['a'], phone := ['1'], comment := [] } ∧
        (['x'] : List Char) ≠ [] := by
  decide

/-- C9 (amended): the free-text field of a loaded entry comes only from
the `comment` key, defaulting to the empty string when that key is
absent; the `note` key is ignored entirely. -/
theorem from_dict_comment_key_spec (d : EntryDict) (n p nt : List Char)
    (hn : d.name = some n) (hp : d.phone = some p) :
    Contact.from_dict { d with note := some nt } = Contact.from_dict d ∧
      (d.comment = none →
        Contact.from_dict d = some (Contact.make n p [] d.id)) ∧
        ∀ cm, d.comment = some cm →
          Contact.from_dict d = some (Contact.make n p cm d.id) := by
  refine ⟨?_, ?_, ?_⟩
  · simp [Contact.from_dict]
  · intro hcm
    simp [Contact.from_dict, hn, hp, hcm]
  · intro cm hcm
    simp [Contact.from_dict, hn, hp, hcm]

theorem from_dict_comment_key_spec_witness :
    Contact.from_dict { entryNoteKey with note := some ['y'] } =
        Contact.from_dict entryNoteKey ∧
      Contact.from_dict entryNoteKey = some (Contact.make ['a'] ['1'] [] none) :=
  ⟨(from_dict_comment_key_spec entryNoteKey ['a'] ['1'] ['y'] rfl rfl).1,
   (from_dict_comment_key_spec entryNoteKey ['a'] ['1'] [] rfl rfl).2.1 rfl⟩

theorem load_contacts_stripped (entries : List EntryDict) (pb : PhoneBook) :
    ∀ c ∈ (pb.load_from_file (.parsed entries)).2.contacts, strippedContact c := by
  by_cases h : entries.filterMap Contact.from_dict = []
  · rw [load_parsed_empty pb entries h]
    intro c hc
    simp at hc
  · rw [load_parsed_nonempty pb entries h]
    refine assignIds_stripped _ _ ?_
    intro c hc
    obtain ⟨d, _, hd⟩ := List.mem_filterMap.mp hc
    exact from_dict_stripped hd

theorem reload_of_saved (pb1 : PhoneBook)
    (hid : ∀ c ∈ pb1.contacts, c.id ≠ none)
    (hst : ∀ c ∈ pb1.contacts, strippedContact c) :
    (pb1.save_to_file.2.load_from_file pb1.save_to_file.1).1 = true ∧
      (pb1.save_to_file.2.load_from_file pb1.save_to_file.1).2.contacts = pb1.contacts := by
  have hcs : (pb1.contacts.map Contact.to_dict).filterMap Contact.from_dict
      = pb1.contacts := by
    rw [List.filterMap_map]
    exact filterMap_self _ fun c hc => from_dict_to_dict (hst c hc)
  have hfile : pb1.save_to_file.1 = .parsed (pb1.contacts.map Contact.to_dict) := rfl
  by_cases h : pb1.contacts = []
  · rw [hfile, load_parsed_empty _ _ (by rw [hcs]; exact h)]
    exact ⟨rfl, h.symm⟩
  · rw [hfile, load_parsed_nonempty _ _ (by rw [hcs]; exact h)]
    refine ⟨rfl, ?_⟩
    show (assignIds (loadBase (pb1.contacts.map Contact.to_dict))
      ((pb1.contacts.map Contact.to_dict).filterMap Contact.from_dict)).2 = pb1.contacts
    rw [hcs, assignIds_no_none _ _ hid]

/-- C10: load a parseable file, save, load again: the second load
succeeds and reproduces exactly the records of the first load — same
ids (including the ids assigned to entries that had none on disk),
names, phones and notes, in the same order. -/
theorem load_save_load_round_trip (entries : List EntryDict) (pb : PhoneBook) :
    ((pb.load_from_file (.parsed entries)).2.save_to_file.2.load_from_file
        (pb.load_from_file (.parsed entries)).2.save_to_file.1).1 = true ∧
      ((pb.load_from_file (.parsed entries)).2.save_to_file.2.load_from_file
          (pb.load_from_file (.parsed entries)).2.save_to_file.1).2.contacts =
        (pb.load_from_file (.parsed entries)).2.contacts :=
  reload_of_saved (pb.load_from_file (.parsed entries)).2
    (load_ids_all_some entries pb) (load_contacts_stripped entries pb)
